import Mathlib

/-!
# Verification of the chess-puzzle solution tracker

Shallow embedding of the puzzle solution-tracking logic of a personal
portfolio website.  The pure functions below are translated from
`src/lib/chess/puzzle.ts` (re-exported through `lichess.ts`), and the
session state machine from the React hook
`src/lib/hooks/useChessPuzzle.ts`.  The live board position is owned by
the external chess.js engine and is outside the tracker state; a move
reaches the tracker only after the engine has accepted it as legal and
produced its canonical (LAN) notation.
-/

namespace ChessPuzzle

/-- Embeds `validatePuzzleMove(move, solution, currentStep)`:
`if (currentStep >= solution.length) return false;
 return move === solution[currentStep];`. -/
def validatePuzzleMove (move : String) (solution : List String) (currentStep : Nat) : Bool :=
  if solution.length ≤ currentStep then false
  else move == solution.getD currentStep ""

/-- Embeds `isPuzzleComplete(currentStep, solution)`:
`return currentStep >= solution.length;`. -/
def isPuzzleComplete (currentStep : Nat) (solution : List String) : Bool :=
  decide (solution.length ≤ currentStep)

/-- Embeds `getOpponentMove(solution, currentStep)`:
`return solution[nextIndex] || null;` — the `||` yields `null` exactly
when the entry is missing (index out of bounds, `undefined`) or is the
empty string, the only falsy string. -/
def getOpponentMove (solution : List String) (currentStep : Nat) : Option String :=
  match solution[currentStep]? with
  | some m => if m = "" then none else some m
  | none => none

/-- JS `Math.round(a / b)` for natural `a` and positive `b`, evaluated
in exact arithmetic: round half towards positive infinity, i.e.
`⌊a/b + 1/2⌋ = (2a + b) / (2b)` in natural division. -/
def mathRound (a b : Nat) : Nat :=
  (2 * a + b) / (2 * b)

/-- Embeds `getPuzzleProgress(currentStep, solution)`:
`if (solution.length === 0) return 0;
 return Math.min(100, Math.round((currentStep / solution.length) * 100));`
with the arithmetic evaluated exactly. -/
def getPuzzleProgress (currentStep : Nat) (solution : List String) : Nat :=
  if solution.length = 0 then 0
  else min 100 (mathRound (100 * currentStep) solution.length)

/-- The solver-session state held by `useChessPuzzle`: the cursor
`currentStep` into the solution, the user-facing `status` message, the
`isComplete` flag and the `isCorrectMove` feedback flag.  The `position`
FEN mirrors the external engine and is not tracked here. -/
structure HookState where
  currentStep : Nat
  status : String
  isComplete : Bool
  isCorrectMove : Option Bool
  deriving Repr, DecidableEq

/-- The state produced when the hook mounts (and by `reset()`):
cursor `0`, status `"Make your move"`, not complete, no feedback. -/
def initState : HookState :=
  { currentStep := 0, status := "Make your move", isComplete := false, isCorrectMove := none }

/-- The synchronous part of `makeMove` in `useChessPuzzle.ts`, applied
to the LAN notation of a move the engine has already accepted as legal.
Returns the updated hook state and the boolean the hook returns.  The
scheduled callbacks (opponent reply after an accepted non-final move,
board revert after a rejected move) run later and are modelled
separately as `opponentReplyTimeout` and `wrongMoveRevertTimeout`. -/
def makeMove (moves : List String) (s : HookState) (lan : String) : HookState × Bool :=
  if validatePuzzleMove lan moves s.currentStep then
    let s1 : HookState :=
      { s with isCorrectMove := some true, status := "Correct!",
               currentStep := s.currentStep + 1 }
    if isPuzzleComplete (s.currentStep + 1) moves then
      ({ s1 with isComplete := true, status := "Puzzle solved! 🎉" }, true)
    else
      (s1, true)
  else
    ({ s with status := "Wrong move! Try again", isCorrectMove := some false }, false)

/-- The timeout callback scheduled after an accepted, non-final move:
plays the scripted opponent reply.  `s` is the state after the player's
accepted move, so the closure's captured `currentStep + 1` equals
`s.currentStep` and its `currentStep + 2` equals `s.currentStep + 1`.
When `getOpponentMove` yields `null` nothing happens. -/
def opponentReplyTimeout (moves : List String) (s : HookState) : HookState :=
  match getOpponentMove moves s.currentStep with
  | none => s
  | some _ =>
    let s1 : HookState :=
      { s with currentStep := s.currentStep + 1, status := "Your turn",
               isCorrectMove := none }
    if isPuzzleComplete (s.currentStep + 1) moves then
      { s1 with isComplete := true, status := "Puzzle solved! 🎉" }
    else
      s1

/-- The timeout callback scheduled after a rejected move: the engine
undoes the move and the feedback is cleared; the cursor is untouched. -/
def wrongMoveRevertTimeout (s : HookState) : HookState :=
  { s with isCorrectMove := none, status := "Try again" }

/-- Embeds `reset()` of the hook: recreates the initial state
regardless of the prior state. -/
def reset (_s : HookState) : HookState :=
  initState

/-- The session outcomes named by the specification. -/
inductive Outcome where
  | InProgress
  | Solved
  | FailedAwaitingRetry
  deriving Repr, DecidableEq

/-- The outcome a hook state denotes: `Solved` when `isComplete` is set,
`Failed-Awaiting-Retry` while the wrong-move feedback is displayed,
`InProgress` otherwise. -/
def HookState.outcome (s : HookState) : Outcome :=
  if s.isComplete then Outcome.Solved
  else if s.isCorrectMove = some false then Outcome.FailedAwaitingRetry
  else Outcome.InProgress

/-- The move outcomes named by the specification; `PuzzleAlreadyResolved`
is the distinct error its error taxonomy prescribes for calls after the
session is resolved. -/
inductive MoveOutcome where
  | Rejected
  | AcceptedAwaitingOpponentReply
  | AcceptedPuzzleComplete
  | PuzzleAlreadyResolved
  deriving Repr, DecidableEq

/-- The operation `attemptMove` as realised by the hook: the
synchronous part of `makeMove`, with the returned boolean refined into
the specification's `MoveOutcome` according to the resulting state. -/
def attemptMove (moves : List String) (s : HookState) (lan : String) : HookState × MoveOutcome :=
  match makeMove moves s lan with
  | (s1, true) =>
    (s1, if s1.isComplete then MoveOutcome.AcceptedPuzzleComplete
         else MoveOutcome.AcceptedAwaitingOpponentReply)
  | (s1, false) => (s1, MoveOutcome.Rejected)

/-- The progress data the hook exposes: `currentStep`, `totalSteps` and
the percentage from `getPuzzleProgress`. -/
structure Progress where
  cursor : Nat
  total : Nat
  percentage : Nat
  deriving Repr, DecidableEq

/-- The pure progress read derived from the hook state. -/
def progress (moves : List String) (s : HookState) : Progress :=
  { cursor := s.currentStep, total := moves.length,
    percentage := getPuzzleProgress s.currentStep moves }

/-- One accepted ply from state `s`: at an even cursor the solver plays
the expected solution move through `makeMove`; at an odd cursor the
scheduled opponent reply fires (the hook's fixed alternation: even
indices are the solver's, odd indices the scripted opponent's). -/
def stepPly (moves : List String) (s : HookState) : HookState :=
  if s.currentStep % 2 = 0 then (makeMove moves s (moves.getD s.currentStep "")).1
  else opponentReplyTimeout moves s

/-- The run that plays `n` accepted plies from the initial state. -/
def runPlies (moves : List String) : Nat → HookState
  | 0 => initState
  | n + 1 => stepPly moves (runPlies moves n)

/-- The Lichess API response shape consumed by `parseLichessPuzzle`
(`LichessPuzzleResponse` in `src/lib/types/chess.ts`). -/
structure LichessGame where
  id : String
  pgn : String
  deriving Repr, DecidableEq

/-- The `puzzle` part of the Lichess API response. -/
structure LichessPuzzleData where
  id : String
  rating : Nat
  plays : Nat
  initialPly : Nat
  solution : List String
  themes : List String
  deriving Repr, DecidableEq

/-- The full Lichess API response. -/
structure LichessPuzzleResponse where
  game : LichessGame
  puzzle : LichessPuzzleData
  deriving Repr, DecidableEq

/-- The `Puzzle` interface of `src/lib/types/chess.ts`. -/
structure Puzzle where
  id : String
  fen : String
  moves : List String
  rating : Option Nat
  themes : Option (List String)
  deriving Repr, DecidableEq

/-- The per-line FEN extraction of `parseLichessPuzzle`: the regex match
of `\[FEN "(.+)"\]` on a line already known to start with `[FEN`, for
the well-formed single-tag case: the text between the `[FEN "` opening
and the closing `"]`, provided it is non-empty. -/
def fenOfLine (line : String) : Option String :=
  if line.startsWith "[FEN \"" && line.endsWith "\"]" && decide (8 < line.length) then
    some ((line.drop 6).dropRight 2)
  else none

/-- Embeds `parseLichessPuzzle(data)`: split the game PGN into lines,
look for the first line starting with `[FEN` and extract the FEN (the
FEN stays `""` when absent), then copy the puzzle fields across.  The
TypeScript function contains no `throw` and performs no validation of
`data.puzzle.solution`: the solution array is copied into `moves`
unchanged, empty or not. -/
def parseLichessPuzzle (data : LichessPuzzleResponse) : Puzzle :=
  let fenLine := (data.game.pgn.splitOn "\n").find? (fun line => line.startsWith "[FEN")
  let fen :=
    match fenLine with
    | some line => (fenOfLine line).getD ""
    | none => ""
  { id := data.puzzle.id, fen := fen, moves := data.puzzle.solution,
    rating := some data.puzzle.rating, themes := some data.puzzle.themes }

/-- Session construction in `useChessPuzzle(puzzle)`: the hook state is
created unconditionally from the puzzle (lines 21–37 of
`useChessPuzzle.ts` contain no emptiness or well-formedness check). -/
def useChessPuzzle (_puzzle : Puzzle) : HookState :=
  initState

/-! ## Helper lemmas -/

/-- Characterisation: `validatePuzzleMove` succeeds exactly on the
expected in-range move. -/
theorem validatePuzzleMove_eq_true_iff (move : String) (solution : List String) (c : Nat) :
    validatePuzzleMove move solution c = true ↔
      c < solution.length ∧ move = solution.getD c "" := by
  unfold validatePuzzleMove
  by_cases h : solution.length ≤ c
  · rw [if_pos h]
    constructor
    · intro hv; cases hv
    · rintro ⟨hc, -⟩; omega
  · rw [if_neg h, beq_iff_eq]
    constructor
    · intro hv; exact ⟨by omega, hv⟩
    · rintro ⟨-, hv⟩; exact hv

/-- A state that denotes `InProgress` has its `isComplete` flag unset. -/
theorem outcome_inProgress_isComplete {s : HookState} (h : s.outcome = Outcome.InProgress) :
    s.isComplete = false := by
  by_contra hb
  rw [Bool.not_eq_false] at hb
  simp [HookState.outcome, hb] at h

/-- When `getOpponentMove` yields a reply, the cursor is in range and
the reply is the (non-empty) solution entry there. -/
theorem getOpponentMove_eq_some {moves : List String} {k : Nat} {m : String}
    (hg : getOpponentMove moves k = some m) :
    k < moves.length ∧ moves.getD k "" = m ∧ m ≠ "" := by
  unfold getOpponentMove at hg
  cases hq : moves[k]? with
  | none => simp [hq] at hg
  | some x =>
    simp only [hq] at hg
    by_cases hx : x = ""
    · simp [hx] at hg
    · simp only [if_neg hx, Option.some.injEq] at hg
      have hlt : k < moves.length := by
        by_contra hk
        rw [List.getElem?_eq_none (by omega)] at hq
        cases hq
      have hd : moves.getD k "" = x := by
        rw [List.getD_eq_getElem?_getD, hq]
        rfl
      subst hg
      exact ⟨hlt, hd, hx⟩

/-- Conversely, an in-range non-empty solution entry is returned. -/
theorem getOpponentMove_eq_some_of {moves : List String} {k : Nat}
    (hlt : k < moves.length) (hne : moves.getD k "" ≠ "") :
    getOpponentMove moves k = some (moves.getD k "") := by
  cases hq : moves[k]? with
  | none =>
    rw [List.getElem?_eq_none_iff] at hq
    omega
  | some x =>
    have hd : moves.getD k "" = x := by
      rw [List.getD_eq_getElem?_getD, hq]
      rfl
    rw [hd] at hne ⊢
    simp [getOpponentMove, hq, hne]

/-! ## C1: accepting the expected move -/

/-- C1: from an in-progress session with the cursor in range, attempting
the move equal to `solution[cursor]` increments the cursor by exactly
one; when the new cursor reaches the solution length, the outcome
becomes `Solved` and the result is `AcceptedPuzzleComplete`, otherwise
the result is `AcceptedAwaitingOpponentReply` and the outcome stays
`InProgress`. -/
theorem attemptMove_correct_move (moves : List String) (s : HookState) (mv : String)
    (hout : s.outcome = Outcome.InProgress)
    (hc : s.currentStep < moves.length)
    (hmv : mv = moves.getD s.currentStep "") :
    (attemptMove moves s mv).1.currentStep = s.currentStep + 1 ∧
      (if s.currentStep + 1 = moves.length then
        (attemptMove moves s mv).1.outcome = Outcome.Solved ∧
          (attemptMove moves s mv).2 = MoveOutcome.AcceptedPuzzleComplete
      else
        (attemptMove moves s mv).1.outcome = Outcome.InProgress ∧
          (attemptMove moves s mv).2 = MoveOutcome.AcceptedAwaitingOpponentReply) := by
  have hic : s.isComplete = false := outcome_inProgress_isComplete hout
  have hval : validatePuzzleMove mv moves s.currentStep = true :=
    (validatePuzzleMove_eq_true_iff mv moves s.currentStep).mpr ⟨hc, hmv⟩
  by_cases hlast : s.currentStep + 1 = moves.length
  · rw [if_pos hlast]
    have hcomp : isPuzzleComplete (s.currentStep + 1) moves = true := by
      simp [isPuzzleComplete]; omega
    simp [attemptMove, makeMove, hval, hcomp, HookState.outcome]
  · rw [if_neg hlast]
    have hcomp : isPuzzleComplete (s.currentStep + 1) moves = false := by
      simp [isPuzzleComplete]; omega
    simp [attemptMove, makeMove, hval, hcomp, HookState.outcome, hic]

/-- C1 witness: solving the one-move puzzle `["e2e4"]` from the initial
state with the expected move. -/
theorem attemptMove_correct_move_witness :
    (attemptMove ["e2e4"] initState "e2e4").1.currentStep = initState.currentStep + 1 :=
  (attemptMove_correct_move ["e2e4"] initState "e2e4" (by decide) (by decide) (by decide)).1

/-! ## C2: rejecting a wrong move -/

/-- C2: from an in-progress session with the cursor in range, attempting
a move different from the expected `solution[cursor]` leaves the cursor
unchanged, sets the outcome to `Failed-Awaiting-Retry` and returns
`Rejected`; the expected move still validates at the unchanged cursor,
so the same expected move remains pending for a retry. -/
theorem attemptMove_wrong_move (moves : List String) (s : HookState) (mv : String)
    (hout : s.outcome = Outcome.InProgress)
    (hc : s.currentStep < moves.length)
    (hmv : mv ≠ moves.getD s.currentStep "") :
    (attemptMove moves s mv).1.currentStep = s.currentStep ∧
      (attemptMove moves s mv).1.outcome = Outcome.FailedAwaitingRetry ∧
      (attemptMove moves s mv).2 = MoveOutcome.Rejected ∧
      validatePuzzleMove (moves.getD s.currentStep "") moves
        (attemptMove moves s mv).1.currentStep = true := by
  have hic : s.isComplete = false := outcome_inProgress_isComplete hout
  have hval : validatePuzzleMove mv moves s.currentStep = false := by
    rw [Bool.eq_false_iff]
    intro hv
    exact hmv ((validatePuzzleMove_eq_true_iff mv moves s.currentStep).mp hv).2
  simp [attemptMove, makeMove, hval, HookState.outcome, hic,
    validatePuzzleMove_eq_true_iff, hc]

/-- C2 witness: the wrong move `"a2a3"` on the puzzle `["e2e4"]`. -/
theorem attemptMove_wrong_move_witness :
    (attemptMove ["e2e4"] initState "a2a3").1.outcome = Outcome.FailedAwaitingRetry :=
  (attemptMove_wrong_move ["e2e4"] initState "a2a3" (by decide) (by decide) (by decide)).2.1

/-! ## C3: calls on an already-resolved session -/

/-- C3 counterexample: calling the hook's move handler on a session that
is already `Solved` (the cursor has reached the end of the solution)
does not fail with a distinct `PuzzleAlreadyResolved` error: the call
is reported as an ordinary wrong-move rejection (`Rejected`, the
wrong-move status message, `isCorrectMove = some false`), mutating the
session's feedback state. -/
theorem attemptMove_no_resolved_error_counterexample :
    (attemptMove ["e2e4"]
        { currentStep := 1, status := "Puzzle solved! 🎉", isComplete := true,
          isCorrectMove := some true } "e2e4").2 = MoveOutcome.Rejected ∧
      (attemptMove ["e2e4"]
        { currentStep := 1, status := "Puzzle solved! 🎉", isComplete := true,
          isCorrectMove := some true } "e2e4").2 ≠ MoveOutcome.PuzzleAlreadyResolved ∧
      (attemptMove ["e2e4"]
        { currentStep := 1, status := "Puzzle solved! 🎉", isComplete := true,
          isCorrectMove := some true } "e2e4").1.status = "Wrong move! Try again" ∧
      (attemptMove ["e2e4"]
        { currentStep := 1, status := "Puzzle solved! 🎉", isComplete := true,
          isCorrectMove := some true } "e2e4").1.isCorrectMove = some false := by
  decide

/-- C3 amended: `attemptMove` performs no resolved-state check at all.
When the cursor has reached or passed the solution length, the call is
handled as an ordinary wrong-move rejection — result `Rejected`,
unchanged cursor, wrong-move status and feedback — and no distinct
`PuzzleAlreadyResolved` result is ever produced by `attemptMove`, for
any arguments whatsoever. -/
theorem attemptMove_resolved_amended (moves : List String) (s : HookState) (mv : String)
    (hc : moves.length ≤ s.currentStep) :
    (attemptMove moves s mv).2 = MoveOutcome.Rejected ∧
      (attemptMove moves s mv).1.currentStep = s.currentStep ∧
      (attemptMove moves s mv).1.status = "Wrong move! Try again" ∧
      (attemptMove moves s mv).1.isCorrectMove = some false ∧
      ∀ (moves1 : List String) (s1 : HookState) (mv1 : String),
        (attemptMove moves1 s1 mv1).2 ≠ MoveOutcome.PuzzleAlreadyResolved := by
  have hval : validatePuzzleMove mv moves s.currentStep = false := by
    unfold validatePuzzleMove
    rw [if_pos hc]
  have hrej : attemptMove moves s mv =
      ({ s with status := "Wrong move! Try again", isCorrectMove := some false },
        MoveOutcome.Rejected) := by
    simp [attemptMove, makeMove, hval]
  rw [hrej]
  refine ⟨rfl, rfl, rfl, rfl, ?_⟩
  intro moves1 s1 mv1
  rcases hmk : makeMove moves1 s1 mv1 with ⟨s2, b⟩
  cases b
  · simp [attemptMove, hmk]
  · by_cases hsc : s2.isComplete
    · simp [attemptMove, hmk, hsc]
    · simp [attemptMove, hmk, hsc]

/-- C3 witness for the amended statement: the resolved one-move puzzle,
plus a concrete instance of the never-`PuzzleAlreadyResolved` part. -/
theorem attemptMove_resolved_amended_witness :
    (attemptMove ["e2e4"]
        { currentStep := 1, status := "Puzzle solved! 🎉", isComplete := true,
          isCorrectMove := some true } "e2e4").1.currentStep = 1 ∧
      (attemptMove ["a1a2"] initState "a1a2").2 ≠ MoveOutcome.PuzzleAlreadyResolved := by
  constructor
  · exact (attemptMove_resolved_amended ["e2e4"]
      { currentStep := 1, status := "Puzzle solved! 🎉", isComplete := true,
        isCorrectMove := some true } "e2e4" (by decide)).2.1
  · exact (attemptMove_resolved_amended ["e2e4"]
      { currentStep := 1, status := "Puzzle solved! 🎉", isComplete := true,
        isCorrectMove := some true } "e2e4" (by decide)).2.2.2.2 ["a1a2"] initState "a1a2"

/-! ## C5: the cursor bounds invariant -/

/-- C5: the cursor invariant `cursor ≤ len(solution)` holds in the
initial state and is preserved by every tracker operation —
`attemptMove`, the opponent-reply timeout, the wrong-move revert and
`reset` (the lower bound `0 ≤ cursor` holds because the cursor is a
natural number). -/
theorem cursor_invariant (moves : List String) (s : HookState) (mv : String)
    (h : s.currentStep ≤ moves.length) :
    initState.currentStep ≤ moves.length ∧
      (attemptMove moves s mv).1.currentStep ≤ moves.length ∧
      (opponentReplyTimeout moves s).currentStep ≤ moves.length ∧
      (wrongMoveRevertTimeout s).currentStep ≤ moves.length ∧
      (reset s).currentStep ≤ moves.length := by
  refine ⟨Nat.zero_le _, ?_, ?_, h, Nat.zero_le _⟩
  · by_cases hval : validatePuzzleMove mv moves s.currentStep = true
    · have hlt : s.currentStep < moves.length :=
        ((validatePuzzleMove_eq_true_iff mv moves s.currentStep).mp hval).1
      by_cases hcomp : isPuzzleComplete (s.currentStep + 1) moves = true
      · simp [attemptMove, makeMove, hval, hcomp]
        omega
      · rw [Bool.not_eq_true] at hcomp
        simp [attemptMove, makeMove, hval, hcomp]
        omega
    · rw [Bool.not_eq_true] at hval
      simp [attemptMove, makeMove, hval]
      exact h
  · unfold opponentReplyTimeout
    cases hg : getOpponentMove moves s.currentStep with
    | none => exact h
    | some m =>
      have hlt : s.currentStep < moves.length := (getOpponentMove_eq_some hg).1
      by_cases hcomp : isPuzzleComplete (s.currentStep + 1) moves = true
      · simp [hcomp]
        omega
      · rw [Bool.not_eq_true] at hcomp
        simp [hcomp]
        omega

/-- C5 witness: the invariant instantiated on a concrete mid-session
state of the three-move puzzle. -/
theorem cursor_invariant_witness :
    (attemptMove ["c8c1", "d2c1", "a3e3"]
        { currentStep := 2, status := "Your turn", isComplete := false,
          isCorrectMove := none } "a3e3").1.currentStep ≤ 3 :=
  (cursor_invariant ["c8c1", "d2c1", "a3e3"]
      { currentStep := 2, status := "Your turn", isComplete := false,
        isCorrectMove := none } "a3e3" (by decide)).2.1

/-! ## C6: the scripted opponent reply -/

/-- C6: immediately after an `attemptMove` that returned
`AcceptedAwaitingOpponentReply`, reading the next opponent reply with
`getOpponentMove` yields exactly `solution[cursor]` for the new cursor
(which is still within the solution), provided that entry is a
canonical move (non-empty).  `getOpponentMove` is a pure function
of the solution and the cursor: it takes no session state and hence
mutates nothing. -/
theorem getOpponentMove_after_accept (moves : List String) (s : HookState) (mv : String)
    (hr : (attemptMove moves s mv).2 = MoveOutcome.AcceptedAwaitingOpponentReply)
    (hne : moves.getD (attemptMove moves s mv).1.currentStep "" ≠ "") :
    (attemptMove moves s mv).1.currentStep < moves.length ∧
      getOpponentMove moves (attemptMove moves s mv).1.currentStep =
        some (moves.getD (attemptMove moves s mv).1.currentStep "") := by
  by_cases hval : validatePuzzleMove mv moves s.currentStep = true
  · by_cases hcomp : isPuzzleComplete (s.currentStep + 1) moves = true
    · simp [attemptMove, makeMove, hval, hcomp] at hr
    · rw [Bool.not_eq_true] at hcomp
      have hlt : s.currentStep + 1 < moves.length := by
        have := hcomp
        simp [isPuzzleComplete] at this
        omega
      have hcur : (attemptMove moves s mv).1.currentStep = s.currentStep + 1 := by
        simp [attemptMove, makeMove, hval, hcomp]
      rw [hcur] at hne ⊢
      exact ⟨hlt, getOpponentMove_eq_some_of hlt hne⟩
  · rw [Bool.not_eq_true] at hval
    simp [attemptMove, makeMove, hval] at hr

/-- C6 witness: after the accepted first move of the three-move puzzle,
the scripted reply is `solution[1] = "d2c1"`. -/
theorem getOpponentMove_after_accept_witness :
    getOpponentMove ["c8c1", "d2c1", "a3e3"]
        (attemptMove ["c8c1", "d2c1", "a3e3"] initState "c8c1").1.currentStep =
      some (["c8c1", "d2c1", "a3e3"].getD
        (attemptMove ["c8c1", "d2c1", "a3e3"] initState "c8c1").1.currentStep "") :=
  (getOpponentMove_after_accept ["c8c1", "d2c1", "a3e3"] initState "c8c1"
    (by decide) (by decide)).2

/-! ## C10: the falsy-entry behaviour of getOpponentMove -/

/-- C10: `getOpponentMove` returns `null` exactly when the index is out
of bounds or the entry is the empty string (the only falsy string), and
otherwise returns the entry unchanged — so an empty-string solution
entry is indistinguishable from no pending reply at this interface. -/
theorem getOpponentMove_none_iff (solution : List String) (i : Nat) :
    (getOpponentMove solution i = none ↔
        solution.length ≤ i ∨ solution.getD i "" = "") ∧
      (i < solution.length → solution.getD i "" ≠ "" →
        getOpponentMove solution i = some (solution.getD i "")) := by
  constructor
  · constructor
    · intro hg
      cases hq : getOpponentMove solution i with
      | none =>
        by_cases hi : i < solution.length
        · by_cases he : solution.getD i "" = ""
          · exact Or.inr he
          · rw [getOpponentMove_eq_some_of hi he] at hg
            cases hg
        · exact Or.inl (by omega)
      | some m =>
        rw [hq] at hg
        cases hg
    · intro hg
      cases hq : getOpponentMove solution i with
      | none => rfl
      | some m =>
        rcases getOpponentMove_eq_some hq with ⟨hlt, hd, hm⟩
        rcases hg with hg | hg
        · omega
        · rw [hd] at hg
          exact absurd hg hm
  · intro hi hne
    exact getOpponentMove_eq_some_of hi hne

/-- C10 witness: a concrete empty-string entry yielding `null`, and a
concrete in-range non-empty entry returned unchanged. -/
theorem getOpponentMove_none_iff_witness :
    getOpponentMove ["e2e4", ""] 1 = none ∧
      getOpponentMove ["e2e4"] 0 = some (["e2e4"].getD 0 "") :=
  ⟨(getOpponentMove_none_iff ["e2e4", ""] 1).1.mpr (Or.inr (by decide)),
   (getOpponentMove_none_iff ["e2e4"] 0).2 (by decide) (by decide)⟩

/-! ## C4: exactly N accepted plies solve the puzzle -/

/-- A state that is not complete never denotes `Solved`. -/
theorem outcome_ne_solved {s : HookState} (h : s.isComplete = false) :
    s.outcome ≠ Outcome.Solved := by
  unfold HookState.outcome
  rw [h]
  by_cases hc : s.isCorrectMove = some false
  · simp [hc]
  · simp [hc]

/-- One accepted ply from an unfinished in-range state advances the
cursor by one and completes the session exactly when the new cursor
reaches the solution length. -/
theorem stepPly_advance (moves : List String) (hmv : ∀ m ∈ moves, m ≠ "")
    (s : HookState) (hk : s.currentStep < moves.length) (hic : s.isComplete = false) :
    (stepPly moves s).currentStep = s.currentStep + 1 ∧
      ((stepPly moves s).isComplete = true ↔ s.currentStep + 1 = moves.length) := by
  have hentry : moves.getD s.currentStep "" ≠ "" := by
    rw [List.getD_eq_getElem?_getD, List.getElem?_eq_getElem hk]
    simp only [Option.getD_some]
    exact hmv _ (List.getElem_mem hk)
  unfold stepPly
  by_cases hpar : s.currentStep % 2 = 0
  · rw [if_pos hpar]
    have hval : validatePuzzleMove (moves.getD s.currentStep "") moves s.currentStep = true :=
      (validatePuzzleMove_eq_true_iff _ _ _).mpr ⟨hk, rfl⟩
    unfold makeMove
    rw [if_pos hval]
    by_cases hcomp : isPuzzleComplete (s.currentStep + 1) moves = true
    · have hlen : moves.length ≤ s.currentStep + 1 := by
        simpa [isPuzzleComplete] using hcomp
      rw [if_pos hcomp]
      refine ⟨rfl, ?_⟩
      simp
      omega
    · have hlen : ¬ moves.length ≤ s.currentStep + 1 := by
        rw [Bool.not_eq_true] at hcomp
        simpa [isPuzzleComplete] using hcomp
      rw [if_neg hcomp]
      refine ⟨rfl, ?_⟩
      show s.isComplete = true ↔ _
      rw [hic]
      simp
      omega
  · rw [if_neg hpar]
    have hg : getOpponentMove moves s.currentStep = some (moves.getD s.currentStep "") :=
      getOpponentMove_eq_some_of hk hentry
    unfold opponentReplyTimeout
    rw [hg]
    by_cases hcomp : isPuzzleComplete (s.currentStep + 1) moves = true
    · have hlen : moves.length ≤ s.currentStep + 1 := by
        simpa [isPuzzleComplete] using hcomp
      simp [hcomp]
      omega
    · rw [Bool.not_eq_true] at hcomp
      have hlen : ¬ moves.length ≤ s.currentStep + 1 := by
        simpa [isPuzzleComplete] using hcomp
      simp [hcomp, hic]
      omega

/-- After `k ≤ N` accepted plies of a non-empty canonical solution, the
cursor is `k` and the session is complete exactly when `k = N`. -/
theorem runPlies_invariant (moves : List String) (hne : moves ≠ [])
    (hmv : ∀ m ∈ moves, m ≠ "") :
    ∀ k, k ≤ moves.length →
      (runPlies moves k).currentStep = k ∧
        ((runPlies moves k).isComplete = true ↔ k = moves.length) := by
  intro k
  induction k with
  | zero =>
    intro _
    refine ⟨rfl, ?_⟩
    constructor
    · intro h
      cases h
    · intro h
      exact absurd (List.length_eq_zero.mp h.symm) hne
  | succ k ih =>
    intro hk
    rcases ih (by omega) with ⟨hcur, hcomp⟩
    have hklt : k < moves.length := by omega
    have hic : (runPlies moves k).isComplete = false := by
      rw [Bool.eq_false_iff]
      intro h
      have := hcomp.mp h
      omega
    have hstep := stepPly_advance moves hmv (runPlies moves k) (by omega : (runPlies moves k).currentStep < moves.length) hic
    rw [hcur] at hstep
    exact hstep

/-- C4: for a puzzle whose solution is a non-empty sequence of
canonical (non-empty) moves of length `N`, starting from the initial
session state, exactly `N` accepted plies (accepted `attemptMove`
player moves at even cursors plus consumed scripted opponent replies at
odd cursors) reach `Solved`: after `N` plies the outcome is `Solved`
and the progress cursor equals `N`, while after any smaller number of
plies the outcome is not `Solved`. -/
theorem solved_after_exactly_length_plies (moves : List String) (hne : moves ≠ [])
    (hmv : ∀ m ∈ moves, m ≠ "") :
    (runPlies moves moves.length).outcome = Outcome.Solved ∧
      (progress moves (runPlies moves moves.length)).cursor = moves.length ∧
      ∀ k < moves.length, (runPlies moves k).outcome ≠ Outcome.Solved := by
  rcases runPlies_invariant moves hne hmv moves.length (le_refl _) with ⟨hcur, hcomp⟩
  have hc : (runPlies moves moves.length).isComplete = true := hcomp.mpr rfl
  refine ⟨?_, hcur, ?_⟩
  · unfold HookState.outcome
    rw [hc]
    rfl
  · intro k hk
    rcases runPlies_invariant moves hne hmv k (by omega) with ⟨-, hcompk⟩
    have hik : (runPlies moves k).isComplete = false := by
      rw [Bool.eq_false_iff]
      intro h
      have := hcompk.mp h
      omega
    exact outcome_ne_solved hik

/-- C4 witness: the three-move puzzle of the source's scenario is solved
after exactly three accepted plies, and not after two. -/
theorem solved_after_exactly_length_plies_witness :
    (runPlies ["c8c1", "d2c1", "a3e3"] 3).outcome = Outcome.Solved ∧
      (runPlies ["c8c1", "d2c1", "a3e3"] 2).outcome ≠ Outcome.Solved := by
  constructor
  · exact (solved_after_exactly_length_plies ["c8c1", "d2c1", "a3e3"]
      (by decide) (by decide)).1
  · exact (solved_after_exactly_length_plies ["c8c1", "d2c1", "a3e3"]
      (by decide) (by decide)).2.2 2 (by decide)

/-! ## C7: the progress read -/

/-- The percentage the specification prescribes, in exact rational
arithmetic: `round(100 * cursor / total)` with JS round-half-up
semantics, clamped to at most `100`, and `0` when `total = 0`. -/
def specPercentage (cursor total : Nat) : ℤ :=
  if total = 0 then 0
  else min 100 ⌊(100 * cursor : ℚ) / total + 1 / 2⌋

/-- Exact-arithmetic `Math.round(a / t)` agrees with the rational
round-half-up floor expression. -/
theorem mathRound_eq_floor (a t : Nat) (ht : 0 < t) :
    (mathRound a t : ℤ) = ⌊(a : ℚ) / t + 1 / 2⌋ := by
  have ht' : (t : ℚ) ≠ 0 := Nat.cast_ne_zero.mpr (by omega)
  have hq : (a : ℚ) / t + 1 / 2 = ((2 * a + t : ℕ) : ℚ) / ((2 * t : ℕ) : ℚ) := by
    push_cast
    field_simp
    ring
  rw [hq, Rat.floor_natCast_div_natCast, mathRound]
  push_cast [Int.ofNat_div]
  rfl

/-- C7: `progress` is a pure read of the session returning the cursor
and `total = len(solution)`, and its percentage equals the clamped
rational rounding `min 100 (round (100 * cursor / total))`, and equals
`0` whenever `total = 0`. -/
theorem progress_eq_spec (moves : List String) (s : HookState) :
    (progress moves s).cursor = s.currentStep ∧
      (progress moves s).total = moves.length ∧
      ((progress moves s).percentage : ℤ) = specPercentage s.currentStep moves.length ∧
      (moves.length = 0 → (progress moves s).percentage = 0) := by
  refine ⟨rfl, rfl, ?_, ?_⟩
  · show ((getPuzzleProgress s.currentStep moves : ℕ) : ℤ) = _
    by_cases h0 : moves.length = 0
    · simp [getPuzzleProgress, specPercentage, h0]
    · rw [getPuzzleProgress, specPercentage, if_neg h0, if_neg h0]
      rw [Nat.cast_min]
      rw [mathRound_eq_floor (100 * s.currentStep) moves.length (by omega)]
      push_cast
      rfl
  · intro h0
    show getPuzzleProgress s.currentStep moves = 0
    rw [getPuzzleProgress, if_pos h0]

/-- C7 witness: the percentage formula at a concrete mid-session state
of the three-move puzzle, and the zero-total case. -/
theorem progress_eq_spec_witness :
    ((progress ["c8c1", "d2c1", "a3e3"]
        { currentStep := 1, status := "Correct!", isComplete := false,
          isCorrectMove := some true }).percentage : ℤ) = specPercentage 1 3 ∧
      (progress ([] : List String) initState).percentage = 0 :=
  ⟨(progress_eq_spec ["c8c1", "d2c1", "a3e3"]
      { currentStep := 1, status := "Correct!", isComplete := false,
        isCorrectMove := some true }).2.2.1,
   (progress_eq_spec ([] : List String) initState).2.2.2 rfl⟩

/-! ## C8: percentage monotonicity and bounds -/

/-- C8: the percentage is monotonically non-decreasing in the cursor and
always lies in `[0, 100]` (the lower bound holds since it is a natural
number); moreover no tracker operation ever decreases the cursor, so the
percentage is non-decreasing across any sequence of accepted moves. -/
theorem progress_monotone_bounded (moves : List String) (s : HookState) (mv : String)
    (c c1 : Nat) (h : c ≤ c1) :
    getPuzzleProgress c moves ≤ getPuzzleProgress c1 moves ∧
      getPuzzleProgress c moves ≤ 100 ∧
      s.currentStep ≤ (attemptMove moves s mv).1.currentStep ∧
      s.currentStep ≤ (opponentReplyTimeout moves s).currentStep := by
  refine ⟨?_, ?_, ?_, ?_⟩
  · unfold getPuzzleProgress
    by_cases h0 : moves.length = 0
    · rw [if_pos h0, if_pos h0]
    · rw [if_neg h0, if_neg h0]
      refine min_le_min (le_refl 100) ?_
      unfold mathRound
      exact Nat.div_le_div_right (by omega)
  · unfold getPuzzleProgress
    by_cases h0 : moves.length = 0
    · rw [if_pos h0]
      omega
    · rw [if_neg h0]
      exact min_le_left _ _
  · by_cases hval : validatePuzzleMove mv moves s.currentStep = true
    · by_cases hcomp : isPuzzleComplete (s.currentStep + 1) moves = true
      · simp [attemptMove, makeMove, hval, hcomp]
      · rw [Bool.not_eq_true] at hcomp
        simp [attemptMove, makeMove, hval, hcomp]
    · rw [Bool.not_eq_true] at hval
      simp [attemptMove, makeMove, hval]
  · unfold opponentReplyTimeout
    cases hg : getOpponentMove moves s.currentStep with
    | none => exact le_refl _
    | some m =>
      by_cases hcomp : isPuzzleComplete (s.currentStep + 1) moves = true
      · simp [hcomp]
      · rw [Bool.not_eq_true] at hcomp
        simp [hcomp]

/-- C8 witness: concrete monotonicity instance on the three-move
solution. -/
theorem progress_monotone_bounded_witness :
    getPuzzleProgress 1 ["c8c1", "d2c1", "a3e3"] ≤
      getPuzzleProgress 2 ["c8c1", "d2c1", "a3e3"] :=
  (progress_monotone_bounded ["c8c1", "d2c1", "a3e3"] initState "c8c1" 1 2
    (by decide)).1

/-! ## C9: no validation of an empty solution -/

/-- C9 counterexample: a response carrying an empty solution sequence is
accepted by `parseLichessPuzzle` — no `MalformedPuzzle` error exists and
none is raised — and `useChessPuzzle` then constructs a usable session
for it (the initial state, outcome `InProgress`). -/
theorem parse_empty_solution_counterexample :
    (parseLichessPuzzle
        { game := { id := "VH0NEQZ8", pgn := "" },
          puzzle := { id := "4pr4N", rating := 1571, plays := 15507, initialPly := 73,
                      solution := [], themes := [] } }).moves = [] ∧
      useChessPuzzle (parseLichessPuzzle
        { game := { id := "VH0NEQZ8", pgn := "" },
          puzzle := { id := "4pr4N", rating := 1571, plays := 15507, initialPly := 73,
                      solution := [], themes := [] } }) = initState ∧
      initState.outcome = Outcome.InProgress :=
  ⟨rfl, rfl, by decide⟩

/-- C9 amended: no emptiness validation occurs anywhere on the path
from the API response to the session.  `parseLichessPuzzle` copies the
solution into `moves` unchanged for every response — empty or not — and
`useChessPuzzle` unconditionally constructs the usable initial session
(cursor `0`, outcome `InProgress`) for the resulting puzzle. -/
theorem parse_no_malformed_validation (data : LichessPuzzleResponse) :
    (parseLichessPuzzle data).moves = data.puzzle.solution ∧
      useChessPuzzle (parseLichessPuzzle data) = initState ∧
      (useChessPuzzle (parseLichessPuzzle data)).outcome = Outcome.InProgress ∧
      (useChessPuzzle (parseLichessPuzzle data)).currentStep = 0 :=
  ⟨rfl, rfl, rfl, rfl⟩

end ChessPuzzle
